import Mathlib

set_option maxRecDepth 8000
set_option maxHeartbeats 1000000

/-!
Verification of the container-format extraction core of `extract_cg.py`
(Unity video payload extractor).

A byte buffer is modelled as a `List Nat` (each entry one byte).  The
functions below are shallow embeddings of, respectively:

* `parse_mp4_atoms`  (source lines 22-44): the boundary parser walking
  length-prefixed records;
* `extract_mp4_video` (source lines 46-93): structural extraction with the
  `moov`-record path and the bounded window fallback;
* the signature-scan loop of `extract_unity_videos` (source lines 110-147),
  modelled as the list of scan steps (candidate start paired with the
  extraction attempt) and the list of accepted payloads;
* the per-object write decision of `extract_unitypy_videos`
  (source lines 205-230);
* the per-file strategy policy of `main` (source lines 276-281), with the
  external UnityPy adapter abstracted as an `Except` outcome feeding the
  `try ... except: return 0` wrapper of lines 238-240.

The two `while` loops are rendered with an explicit fuel argument that is
structurally decreased; a congruence lemma shows that any fuel strictly
above the number of remaining buffer positions computes the loop value, and
the top-level wrappers pass `length + 1`, which always suffices because both
loop cursors strictly advance while bounded by the buffer length.
-/

/-- ASCII bytes of the signature tag "ftyp". -/
def ftypTag : List Nat := [102, 116, 121, 112]

/-- ASCII bytes of the movie-metadata tag "moov". -/
def moovTag : List Nat := [109, 111, 111, 118]

/-- ASCII bytes of the media-data tag "mdat". -/
def mdatTag : List Nat := [109, 100, 97, 116]

/-- Big-endian unsigned 32-bit decode of a 4-byte list, as
`struct.unpack` on `data[pos:pos+4]` does at source line 32. -/
def decodeU32 (bs : List Nat) : Nat :=
  match bs with
  | [b0, b1, b2, b3] => ((b0 * 256 + b1) * 256 + b2) * 256 + b3
  | _ => 0

/-- Big-endian unsigned 32-bit encode; helper used to state claims that
build well-formed size fields. -/
def beU32 (n : Nat) : List Nat :=
  [n / 16777216 % 256, n / 65536 % 256, n / 256 % 256, n % 256]

/-- Fueled rendering of the `while` loop of `parse_mp4_atoms`
(source lines 27-42).  Each iteration: stop unless `pos < len(data) - 8`
(the inner `pos + 8 > len(data)` guard of line 29 is kept even though the
loop condition already implies it is false); read the big-endian size and
the 4-byte type; stop if `size < 8` or `size > len(data) - pos`; otherwise
record `(type, pos, size)` and continue at `pos + size`.  The fuel only
bounds the iteration count; `parseLoop_congr` below shows every fuel above
`data.length - pos` computes the same value. -/
def parseLoop : Nat → List Nat → Nat → List (List Nat × Nat × Nat)
  | 0, _, _ => []
  | fuel + 1, data, pos =>
    if pos + 8 < data.length then
      if data.length < pos + 8 then []
      else
        let atom_size := decodeU32 ((data.drop pos).take 4)
        let atom_type := (data.drop (pos + 4)).take 4
        if atom_size < 8 ∨ data.length - pos < atom_size then []
        else (atom_type, pos, atom_size) :: parseLoop fuel data (pos + atom_size)
    else []

/-- The boundary parser `parse_mp4_atoms(data, start_pos)` of source
lines 22-44: the fuel `data.length + 1` always suffices because the cursor
strictly advances by at least 8 on every recorded atom. -/
def parse_mp4_atoms (data : List Nat) (start_pos : Nat) : List (List Nat × Nat × Nat) :=
  parseLoop (data.length + 1) data start_pos

/-- End position of the last parsed atom (source lines 68-69):
`last_atom[1] + last_atom[2]`, or 0 when no atom was parsed (that case is
never reached by `extract_mp4_video`, which returns early on an empty
parse). -/
def last_atom_end (data : List Nat) (start_pos : Nat) : Nat :=
  ((parse_mp4_atoms data start_pos).getLast?.map fun r => r.2.1 + r.2.2).getD 0

/-- The slice `data[start_pos:end_pos]` of source line 72, where `end_pos`
is the end of the last parsed atom. -/
def mp4_struct_slice (data : List Nat) (start_pos : Nat) : List Nat :=
  (data.drop start_pos).take (last_atom_end data start_pos - start_pos)

/-- The window slice `data[start_pos:min(start_pos + 100 MiB, len(data))]`
of source lines 82-83. -/
def mp4_window (data : List Nat) (start_pos : Nat) : List Nat :=
  (data.drop start_pos).take (min (start_pos + 100 * 1024 * 1024) data.length - start_pos)

/-- The bounded fallback of source lines 80-87: if strictly more than 1000
bytes remain from `start_pos`, return the window provided it contains the
bytes of `moov` or of `mdat` anywhere (Python substring membership),
otherwise nothing. -/
def mp4_window_fallback (data : List Nat) (start_pos : Nat) : Option (List Nat) :=
  if 1000 < data.length - start_pos then
    if moovTag <:+: mp4_window data start_pos ∨ mdatTag <:+: mp4_window data start_pos then
      some (mp4_window data start_pos)
    else none
  else none

/-- The extraction routine `extract_mp4_video(data, start_pos)` of source
lines 46-93.  After parsing: return nothing on an empty parse; if some
parsed atom has type `moov` and the structural slice passes the
`video_data.startswith(b'ftyp')` check of line 75, return that slice;
otherwise fall through (the source has no `else`) to the bounded window
fallback of lines 80-87. -/
def extract_mp4_video (data : List Nat) (start_pos : Nat) : Option (List Nat) :=
  if parse_mp4_atoms data start_pos = [] then none
  else if (∃ r ∈ parse_mp4_atoms data start_pos, r.1 = moovTag) ∧
      (mp4_struct_slice data start_pos).take 4 = ftypTag then
    some (mp4_struct_slice data start_pos)
  else mp4_window_fallback data start_pos

/-- Auxiliary structural search: first index (counted from `idx`) at which
the remaining list starts with the 4 bytes of `ftyp`.  A match needs all 4
bytes present, as Python substring search does. -/
def findFtypAux : List Nat → Nat → Option Nat
  | [], _ => none
  | a :: rest, idx =>
    if (a :: rest).take 4 = ftypTag then some idx
    else findFtypAux rest (idx + 1)

/-- The Python call `content.find(b'ftyp', pos)` of source line 116: the
least index at or after `pos` where the 4 signature bytes occur, or
nothing (`-1` in the source) when there is no occurrence. -/
def findFtyp (data : List Nat) (pos : Nat) : Option Nat :=
  findFtypAux (data.drop pos) pos

/-- The property that the 4 signature bytes `ftyp` occur at index `i`. -/
def isFtypAt (data : List Nat) (i : Nat) : Prop :=
  (data.drop i).take 4 = ftypTag

instance (data : List Nat) (i : Nat) : Decidable (isFtypAt data i) := by
  unfold isFtypAt; infer_instance

/-- Fueled rendering of the scan loop of `extract_unity_videos`
(source lines 114-145).  Each step: locate the next signature occurrence at
or after the cursor; stop when there is none; when the occurrence `p` is
within the first 4 bytes (`p < 4`) skip it, advancing the cursor to
`p + 1`; otherwise attempt extraction at candidate start `p - 4`, record
the step, and advance the cursor to `p + 4`.  Each recorded step pairs the
candidate start with the result of `extract_mp4_video` there. -/
def scanLoop : Nat → List Nat → Nat → List (Nat × Option (List Nat))
  | 0, _, _ => []
  | fuel + 1, content, pos =>
    match findFtyp content pos with
    | none => []
    | some p =>
      if p < 4 then scanLoop fuel content (p + 1)
      else (p - 4, extract_mp4_video content (p - 4)) :: scanLoop fuel content (p + 4)

/-- The full scan of a buffer from cursor 0, with always-sufficient fuel
(the cursor strictly increases and every found occurrence leaves at least
4 bytes, so at most `content.length` steps happen). -/
def scan_steps (content : List Nat) : List (Nat × Option (List Nat)) :=
  scanLoop (content.length + 1) content 0

/-- The payloads written by `extract_unity_videos` (source lines 132-141),
in scan order: a step's extraction result is kept exactly when it produced
a slice of length strictly greater than 1000. -/
def extract_unity_videos (content : List Nat) : List (List Nat) :=
  (scan_steps content).filterMap fun st =>
    match st.2 with
    | some v => if 1000 < v.length then some v else none
    | none => none

/-- The per-object write decision of `extract_unitypy_videos`
(source lines 205-230), given the raw blob obtained from the object (the
UnityPy attribute probing that produces the blob is external).  A payload
is returned exactly when the source writes a `.mp4` file: the blob is
non-empty and longer than 1000 bytes, and either it starts with the
signature bytes, or the first signature occurrence sits at index at least
4 and `extract_mp4_video` at that occurrence minus 4 succeeds (otherwise
the extension is `.bin` and nothing is written). -/
def unitypy_video_payload (raw_data : List Nat) : Option (List Nat) :=
  if raw_data ≠ [] ∧ 1000 < raw_data.length then
    if raw_data.take 4 = ftypTag then some raw_data
    else
      match findFtyp raw_data 0 with
      | some p => if 4 ≤ p then extract_mp4_video raw_data (p - 4) else none
      | none => none
  else none

/-- The count returned by `extract_unitypy_videos` at file level
(source lines 153-240): the whole body runs under `try`, and any adapter
failure (including failure to load the file at all) is caught by the
`except` of lines 238-240 and reported as count 0.  The adapter run is
abstracted as an `Except` outcome carrying the count of written videos on
success. -/
def extract_unitypy_videos (outcome : Except String Nat) : Nat :=
  match outcome with
  | .ok n => n
  | .error _ => 0

/-- The per-file policy of `main` (source lines 276-281): run the UnityPy
path first; run the signature scanner over the raw content exactly when
that path reported zero videos.  Returns the per-file count together with
whether the scanner ran. -/
def main_process_file (adapterOutcome : Except String Nat) (scannerCount : Nat) : Nat × Bool :=
  let extracted := extract_unitypy_videos adapterOutcome
  if extracted = 0 then (scannerCount, true) else (extracted, false)

/-- Buffer built as the round-trip claim describes: a 4-byte big-endian
size field holding the total length, the tag `ftyp`, then a well-formed
`moov` record with payload `m` and a well-formed `mdat` record with
payload `p`. -/
def mkRoundTrip (m p : List Nat) : List Nat :=
  beU32 (24 + m.length + p.length) ++ ftypTag ++
    (beU32 (8 + m.length) ++ moovTag ++ m) ++
    (beU32 (8 + p.length) ++ mdatTag ++ p)

/-- Concrete 48-byte buffer holding three well-formed records
`ftyp`, `moov`, `mdat` of 16 bytes each: a structurally intact file whose
extracted slice carries `ftyp` at bytes 4 to 8. -/
def c1buf : List Nat :=
  [0, 0, 0, 16] ++ ftypTag ++ List.replicate 8 0 ++
    [0, 0, 0, 16] ++ moovTag ++ List.replicate 8 0 ++
    [0, 0, 0, 16] ++ mdatTag ++ List.replicate 8 0

/-- Concrete 16-byte buffer holding one well-formed 12-byte record and 4
trailing bytes. -/
def c7buf : List Nat :=
  [0, 0, 0, 12, 102, 114, 101, 101, 0, 0, 0, 0, 0, 0, 0, 0]

/-- Concrete 28-byte buffer holding two adjacent well-formed records:
a 12-byte `free` record and a 16-byte `mdat` record. -/
def c6buf : List Nat :=
  [0, 0, 0, 12, 102, 114, 101, 101, 0, 0, 0, 0] ++
    [0, 0, 0, 16] ++ mdatTag ++ List.replicate 8 0

/-- Concrete 1000-byte buffer: one well-formed 16-byte `mdat` record
followed by zero padding, so that exactly 1000 bytes remain from offset
0. -/
def c4buf : List Nat := [0, 0, 0, 16] ++ mdatTag ++ List.replicate 992 0

/-- Concrete 1100-byte buffer consisting of a single well-formed `moov`
record covering the whole buffer. -/
def c5buf : List Nat := beU32 1100 ++ moovTag ++ List.replicate 1092 0

/-- Concrete 1009-byte buffer: size field holding 1009, the signature tag,
the `moov` tag bytes, then zero padding. -/
def c10buf : List Nat := beU32 1009 ++ ftypTag ++ moovTag ++ List.replicate 997 0

/-- Concrete 1001-byte blob starting with the signature bytes. -/
def c10raw : List Nat := ftypTag ++ List.replicate 997 0

/-- Concrete 14-byte buffer with signature occurrences at index 2 (too
early to leave room for a size field) and at index 10. -/
def c8buf : List Nat := [0, 0] ++ ftypTag ++ [0, 0, 0, 0] ++ ftypTag

-- sanity checks of the embedding on tiny inputs (spec section 8 scenario)
example : parse_mp4_atoms ([0, 0, 0, 16] ++ moovTag ++ List.replicate 8 0) 0
    = [(moovTag, 0, 16)] := by decide

example : parse_mp4_atoms [0, 0, 0, 8, 102, 114, 101, 101] 0 = [] := by decide

example : extract_mp4_video (mkRoundTrip [] []) 0 = none := by decide

example : findFtyp [0, 0, 102, 116, 121, 112] 0 = some 2 := by decide

example : scan_steps [0, 0, 102, 116, 121, 112, 0, 0, 0, 0, 102, 116, 121, 112]
    = [(6, none)] := by decide

/-! ## Lemmas about the boundary parser -/

theorem parseLoop_congr (data : List Nat) :
    ∀ f1 f2 pos, data.length - pos < f1 → data.length - pos < f2 →
      parseLoop f1 data pos = parseLoop f2 data pos := by
  intro f1
  induction f1 with
  | zero => intro f2 pos h1 h2; omega
  | succ f ih =>
    intro f2 pos h1 h2
    cases f2 with
    | zero => omega
    | succ f2 =>
      simp only [parseLoop]
      by_cases hg : pos + 8 < data.length
      · have h3 : ¬ data.length < pos + 8 := by omega
        simp only [if_pos hg, if_neg h3]
        by_cases hbad : decodeU32 ((data.drop pos).take 4) < 8 ∨
            data.length - pos < decodeU32 ((data.drop pos).take 4)
        · simp only [if_pos hbad]
        · simp only [if_neg hbad]
          have h8 : 8 ≤ decodeU32 ((data.drop pos).take 4) := by omega
          congr 1
          exact ih f2 (pos + decodeU32 ((data.drop pos).take 4)) (by omega) (by omega)
      · simp only [if_neg hg]

theorem parseLoop_succ_cons (fuel : Nat) (data : List Nat) (pos : Nat)
    (h : pos + 8 < data.length)
    (h8 : 8 ≤ decodeU32 ((data.drop pos).take 4))
    (hle : decodeU32 ((data.drop pos).take 4) ≤ data.length - pos) :
    parseLoop (fuel + 1) data pos =
      ((data.drop (pos + 4)).take 4, pos, decodeU32 ((data.drop pos).take 4)) ::
        parseLoop fuel data (pos + decodeU32 ((data.drop pos).take 4)) := by
  have h2 : ¬ data.length < pos + 8 := by omega
  have hbad : ¬ (decodeU32 ((data.drop pos).take 4) < 8 ∨
      data.length - pos < decodeU32 ((data.drop pos).take 4)) := by omega
  simp only [parseLoop, if_pos h, if_neg h2, if_neg hbad]

theorem parse_eq_nil_of_short (data : List Nat) (pos : Nat)
    (h : ¬ pos + 8 < data.length) : parse_mp4_atoms data pos = [] := by
  unfold parse_mp4_atoms
  simp only [parseLoop, if_neg h]

theorem parse_eq_nil_of_bad (data : List Nat) (pos : Nat)
    (h : pos + 8 < data.length)
    (hbad : decodeU32 ((data.drop pos).take 4) < 8 ∨
      data.length - pos < decodeU32 ((data.drop pos).take 4)) :
    parse_mp4_atoms data pos = [] := by
  have h2 : ¬ data.length < pos + 8 := by omega
  unfold parse_mp4_atoms
  simp only [parseLoop, if_pos h, if_neg h2, if_pos hbad]

theorem parse_eq_cons (data : List Nat) (pos : Nat)
    (h : pos + 8 < data.length)
    (h8 : 8 ≤ decodeU32 ((data.drop pos).take 4))
    (hle : decodeU32 ((data.drop pos).take 4) ≤ data.length - pos) :
    parse_mp4_atoms data pos =
      ((data.drop (pos + 4)).take 4, pos, decodeU32 ((data.drop pos).take 4)) ::
        parse_mp4_atoms data (pos + decodeU32 ((data.drop pos).take 4)) := by
  unfold parse_mp4_atoms
  rw [parseLoop_succ_cons data.length data pos h h8 hle]
  congr 1
  exact parseLoop_congr data data.length (data.length + 1)
    (pos + decodeU32 ((data.drop pos).take 4)) (by omega) (by omega)

theorem parseLoop_inv (data : List Nat) : ∀ fuel pos,
    (∀ r ∈ parseLoop fuel data pos,
      8 ≤ r.2.2 ∧ pos ≤ r.2.1 ∧ r.2.1 + r.2.2 ≤ data.length) ∧
    (∀ r, (parseLoop fuel data pos)[0]? = some r → r.2.1 = pos) ∧
    (∀ i r r2, (parseLoop fuel data pos)[i]? = some r →
      (parseLoop fuel data pos)[i + 1]? = some r2 → r2.2.1 = r.2.1 + r.2.2) := by
  intro fuel
  induction fuel with
  | zero => intro pos; refine ⟨?_, ?_, ?_⟩ <;> simp [parseLoop]
  | succ f ih =>
    intro pos
    by_cases hg : pos + 8 < data.length
    · have h2 : ¬ data.length < pos + 8 := by omega
      by_cases hbad : decodeU32 ((data.drop pos).take 4) < 8 ∨
          data.length - pos < decodeU32 ((data.drop pos).take 4)
      · refine ⟨?_, ?_, ?_⟩ <;> simp [parseLoop, if_pos hg, if_neg h2, if_pos hbad]
      · have h8 : 8 ≤ decodeU32 ((data.drop pos).take 4) := by omega
        have hle : decodeU32 ((data.drop pos).take 4) ≤ data.length - pos := by omega
        have hcons := parseLoop_succ_cons f data pos hg h8 hle
        obtain ⟨ihmem, ihhead, ihadj⟩ := ih (pos + decodeU32 ((data.drop pos).take 4))
        rw [hcons]
        refine ⟨?_, ?_, ?_⟩
        · intro r hr
          rcases List.mem_cons.mp hr with hr | hr
          · subst hr
            refine ⟨h8, Nat.le_refl pos, ?_⟩
            show pos + decodeU32 ((data.drop pos).take 4) ≤ data.length
            omega
          · obtain ⟨ha, hb, hc⟩ := ihmem r hr
            exact ⟨ha, by omega, hc⟩
        · intro r hr
          rw [List.getElem?_cons_zero] at hr
          cases hr
          rfl
        · intro i r r2 hr hr2
          cases i with
          | zero =>
            rw [List.getElem?_cons_zero] at hr
            cases hr
            rw [List.getElem?_cons_succ] at hr2
            exact ihhead r2 hr2
          | succ i =>
            rw [List.getElem?_cons_succ] at hr hr2
            exact ihadj i r r2 hr hr2
    · refine ⟨?_, ?_, ?_⟩ <;> simp [parseLoop, if_neg hg]

theorem parse_inv (data : List Nat) (pos : Nat) :
    (∀ r ∈ parse_mp4_atoms data pos,
      8 ≤ r.2.2 ∧ pos ≤ r.2.1 ∧ r.2.1 + r.2.2 ≤ data.length) ∧
    (∀ r, (parse_mp4_atoms data pos)[0]? = some r → r.2.1 = pos) ∧
    (∀ i r r2, (parse_mp4_atoms data pos)[i]? = some r →
      (parse_mp4_atoms data pos)[i + 1]? = some r2 → r2.2.1 = r.2.1 + r.2.2) :=
  parseLoop_inv data (data.length + 1) pos

theorem parseLoop_len (data : List Nat) : ∀ fuel pos,
    parseLoop fuel data pos ≠ [] →
      pos + 8 * (parseLoop fuel data pos).length ≤ data.length := by
  intro fuel
  induction fuel with
  | zero => intro pos h; simp [parseLoop] at h
  | succ f ih =>
    intro pos h
    by_cases hg : pos + 8 < data.length
    · have h2 : ¬ data.length < pos + 8 := by omega
      by_cases hbad : decodeU32 ((data.drop pos).take 4) < 8 ∨
          data.length - pos < decodeU32 ((data.drop pos).take 4)
      · simp [parseLoop, if_pos hg, if_neg h2, if_pos hbad] at h
      · have h8 : 8 ≤ decodeU32 ((data.drop pos).take 4) := by omega
        have hle : decodeU32 ((data.drop pos).take 4) ≤ data.length - pos := by omega
        rw [parseLoop_succ_cons f data pos hg h8 hle]
        rw [parseLoop_succ_cons f data pos hg h8 hle] at h
        by_cases htail : parseLoop f data (pos + decodeU32 ((data.drop pos).take 4)) = []
        · simp [htail]
          omega
        · have := ih (pos + decodeU32 ((data.drop pos).take 4)) htail
          simp only [List.length_cons]
          omega
    · simp [parseLoop, if_neg hg] at h

theorem getLast?_mem_own {α : Type} : ∀ (l : List α) (a : α), l.getLast? = some a → a ∈ l := by
  intro l
  induction l with
  | nil => intro a h; simp at h
  | cons x xs ih =>
    intro a h
    cases xs with
    | nil =>
      simp [List.getLast?] at h
      simp [h]
    | cons y ys =>
      rw [List.getLast?_cons_cons] at h
      exact List.mem_cons_of_mem x (ih a h)

/-! ## Lemmas about the signature search -/

theorem isFtypAt_le (data : List Nat) (i : Nat) (h : isFtypAt data i) :
    i + 4 ≤ data.length := by
  unfold isFtypAt at h
  have h4 : ((data.drop i).take 4).length = 4 := by rw [h]; rfl
  rw [List.length_take, List.length_drop] at h4
  omega

theorem isFtypAt_getElem (data : List Nat) (i : Nat) (h : isFtypAt data i) :
    data[i]? = some 102 ∧ data[i + 1]? = some 116 ∧
      data[i + 2]? = some 121 ∧ data[i + 3]? = some 112 := by
  unfold isFtypAt at h
  have g : ∀ j, j < 4 → data[i + j]? = ftypTag[j]? := by
    intro j hj
    have hj2 : ((data.drop i).take 4)[j]? = ftypTag[j]? := by rw [h]
    rw [List.getElem?_take, if_pos hj, List.getElem?_drop] at hj2
    exact hj2
  refine ⟨?_, ?_, ?_, ?_⟩
  · have := g 0 (by omega); simpa using this
  · exact g 1 (by omega)
  · exact g 2 (by omega)
  · exact g 3 (by omega)

theorem ftyp_no_overlap (data : List Nat) (p q : Nat) (hp : isFtypAt data p)
    (hq : isFtypAt data q) (h1 : p < q) (h2 : q < p + 4) : False := by
  obtain ⟨a0, a1, a2, a3⟩ := isFtypAt_getElem data p hp
  obtain ⟨b0, b1, b2, b3⟩ := isFtypAt_getElem data q hq
  have hcase : q = p + 1 ∨ q = p + 2 ∨ q = p + 3 := by omega
  rcases hcase with hc | hc | hc <;> subst hc
  · rw [a1] at b0; simp at b0
  · rw [a2] at b0; simp at b0
  · rw [a3] at b0; simp at b0

theorem findFtypAux_some : ∀ (l : List Nat) (idx j : Nat), findFtypAux l idx = some j →
    idx ≤ j ∧ (l.drop (j - idx)).take 4 = ftypTag ∧
      ∀ k, idx ≤ k → k < j → ¬ (l.drop (k - idx)).take 4 = ftypTag := by
  intro l
  induction l with
  | nil => intro idx j h; simp [findFtypAux] at h
  | cons a rest ih =>
    intro idx j h
    by_cases hm : (a :: rest).take 4 = ftypTag
    · rw [findFtypAux, if_pos hm] at h
      cases h
      refine ⟨Nat.le_refl idx, by simpa using hm, ?_⟩
      intro k hk1 hk2
      omega
    · rw [findFtypAux, if_neg hm] at h
      obtain ⟨h1, h2, h3⟩ := ih (idx + 1) j h
      refine ⟨by omega, ?_, ?_⟩
      · have hj : j - idx = (j - (idx + 1)) + 1 := by omega
        rw [hj]
        simpa using h2
      · intro k hk1 hk2 hco
        by_cases hk : k = idx
        · subst hk
          simp at hco
          exact hm hco
        · have hkk : k - idx = (k - (idx + 1)) + 1 := by omega
          rw [hkk] at hco
          exact h3 k (by omega) hk2 (by simpa using hco)

theorem findFtypAux_none : ∀ (l : List Nat) (idx : Nat), findFtypAux l idx = none →
    ∀ m, ¬ (l.drop m).take 4 = ftypTag := by
  intro l
  induction l with
  | nil => intro idx h m; simp [ftypTag]
  | cons a rest ih =>
    intro idx h m
    rw [findFtypAux] at h
    by_cases hm : (a :: rest).take 4 = ftypTag
    · rw [if_pos hm] at h; cases h
    · rw [if_neg hm] at h
      cases m with
      | zero => simpa using hm
      | succ m => simpa using ih (idx + 1) h m

theorem findFtyp_some (data : List Nat) (pos j : Nat) (h : findFtyp data pos = some j) :
    pos ≤ j ∧ isFtypAt data j ∧ ∀ k, pos ≤ k → k < j → ¬ isFtypAt data k := by
  unfold findFtyp at h
  obtain ⟨h1, h2, h3⟩ := findFtypAux_some (data.drop pos) pos j h
  refine ⟨h1, ?_, ?_⟩
  · unfold isFtypAt
    have hd : (data.drop pos).drop (j - pos) = data.drop j := by
      rw [List.drop_drop]
      congr 1
      omega
    rw [← hd]
    exact h2
  · intro k hk1 hk2 hco
    refine h3 k hk1 hk2 ?_
    have hd : (data.drop pos).drop (k - pos) = data.drop k := by
      rw [List.drop_drop]
      congr 1
      omega
    rw [hd]
    exact hco

theorem findFtyp_none (data : List Nat) (pos : Nat) (h : findFtyp data pos = none) :
    ∀ q, pos ≤ q → ¬ isFtypAt data q := by
  intro q hq hco
  have hnone := findFtypAux_none (data.drop pos) pos h (q - pos)
  have hd : (data.drop pos).drop (q - pos) = data.drop q := by
    rw [List.drop_drop]
    congr 1
    omega
  rw [hd] at hnone
  exact hnone hco

/-! ## Lemmas about the scan loop -/

theorem scanLoop_congr (content : List Nat) :
    ∀ f1 f2 pos, content.length - pos < f1 → content.length - pos < f2 →
      scanLoop f1 content pos = scanLoop f2 content pos := by
  intro f1
  induction f1 with
  | zero => intro f2 pos h1 h2; omega
  | succ f ih =>
    intro f2 pos h1 h2
    cases f2 with
    | zero => omega
    | succ f2 =>
      simp only [scanLoop]
      cases hf : findFtyp content pos with
      | none => rfl
      | some p =>
        obtain ⟨hp1, hp2, _⟩ := findFtyp_some content pos p hf
        have hp4 := isFtypAt_le content p hp2
        by_cases hlt : p < 4
        · simp only [if_pos hlt]
          exact ih f2 (p + 1) (by omega) (by omega)
        · simp only [if_neg hlt]
          congr 1
          exact ih f2 (p + 4) (by omega) (by omega)

theorem scanLoop_sound (content : List Nat) : ∀ fuel pos c,
    c ∈ (scanLoop fuel content pos).map Prod.fst → isFtypAt content (c + 4) := by
  intro fuel
  induction fuel with
  | zero => intro pos c h; simp [scanLoop] at h
  | succ f ih =>
    intro pos c h
    cases hf : findFtyp content pos with
    | none => simp [scanLoop, hf] at h
    | some p =>
      simp only [scanLoop, hf] at h
      obtain ⟨hp1, hp2, _⟩ := findFtyp_some content pos p hf
      by_cases hlt : p < 4
      · rw [if_pos hlt] at h
        exact ih (p + 1) c h
      · rw [if_neg hlt] at h
        simp only [List.map_cons] at h
        rcases List.mem_cons.mp h with h | h
        · rw [h]
          show isFtypAt content (p - 4 + 4)
          have he : p - 4 + 4 = p := by omega
          rw [he]
          exact hp2
        · exact ih (p + 4) c h

theorem scanLoop_complete (content : List Nat) : ∀ fuel pos q,
    content.length - pos < fuel → pos ≤ q → 4 ≤ q → isFtypAt content q →
      q - 4 ∈ (scanLoop fuel content pos).map Prod.fst := by
  intro fuel
  induction fuel with
  | zero => intro pos q h1 h2 h3 h4; omega
  | succ f ih =>
    intro pos q h1 h2 h3 h4
    cases hf : findFtyp content pos with
    | none => exact absurd h4 (findFtyp_none content pos hf q h2)
    | some p =>
      simp only [scanLoop, hf]
      obtain ⟨hp1, hp2, hpmin⟩ := findFtyp_some content pos p hf
      have hp4 := isFtypAt_le content p hp2
      have hq4 := isFtypAt_le content q h4
      have hpq : p ≤ q := by
        by_contra hcon
        exact hpmin q h2 (by omega) h4
      by_cases hlt : p < 4
      · rw [if_pos hlt]
        exact ih (p + 1) q (by omega) (by omega) h3 h4
      · rw [if_neg hlt]
        by_cases hqp : q = p
        · subst hqp
          simp
        · have hqge : p + 4 ≤ q := by
            by_contra hcon
            exact ftyp_no_overlap content p q hp2 h4 (by omega) (by omega)
          simp only [List.map_cons]
          exact List.mem_cons_of_mem _ (ih (p + 4) q (by omega) (by omega) h3 h4)

/-! ## Claim C1 -/

/-- Claim C1 (code-bug evidence): on a structurally valid 48-byte file the
parsed sequence contains a `moov` record and the extracted slice carries
the signature `ftyp` at bytes 4 to 8 (the type-tag region of the leading
record), yet `extract_mp4_video` returns nothing, because the source line
75 checks `startswith(b'ftyp')`, i.e. bytes 0 to 4 of the slice, which
hold the size field. -/
theorem claim_C1_wrong_offset_check :
    (∃ r ∈ parse_mp4_atoms c1buf 0, r.1 = moovTag) ∧
    ((mp4_struct_slice c1buf 0).drop 4).take 4 = ftypTag ∧
    extract_mp4_video c1buf 0 = none := by
  decide

/-! ## Claim C3 -/

/-- Claim C3 (code-bug evidence): an 8-byte buffer that is exactly one
well-formed record (size field 8, length 8) makes the parser return the
empty sequence: the loop guard `pos < len(data) - 8` of source line 27
stops one record short when the 8-byte header occupies exactly the last 8
remaining bytes, although the guard of line 29 and the comment of line 27
show the intended bound was `pos + 8 <= len(data)`. -/
theorem claim_C3_exact_tail_record_dropped :
    ([0, 0, 0, 8, 102, 114, 101, 101] : List Nat).length = 8 ∧
    decodeU32 (([0, 0, 0, 8, 102, 114, 101, 101] : List Nat).take 4) = 8 ∧
    parse_mp4_atoms [0, 0, 0, 8, 102, 114, 101, 101] 0 = [] := by
  refine ⟨rfl, rfl, ?_⟩
  decide

/-! ## Claim C6 -/

/-- Claim C6: every record returned by `parse_mp4_atoms` satisfies
`length >= 8` and `offset + length <= len(B)`, consecutive records satisfy
`record[i+1].offset = record[i].offset + record[i].length`, and the final
record's end never exceeds `len(B)`. -/
theorem claim_C6_parse_record_invariants (B : List Nat) (s : Nat) :
    (∀ r ∈ parse_mp4_atoms B s, 8 ≤ r.2.2 ∧ r.2.1 + r.2.2 ≤ B.length) ∧
    (∀ i r r2, (parse_mp4_atoms B s)[i]? = some r →
      (parse_mp4_atoms B s)[i + 1]? = some r2 → r2.2.1 = r.2.1 + r.2.2) ∧
    (∀ r, (parse_mp4_atoms B s).getLast? = some r → r.2.1 + r.2.2 ≤ B.length) := by
  obtain ⟨hmem, hhead, hadj⟩ := parse_inv B s
  refine ⟨?_, hadj, ?_⟩
  · intro r hr
    obtain ⟨h1, _, h3⟩ := hmem r hr
    exact ⟨h1, h3⟩
  · intro r hr
    exact (hmem r (getLast?_mem_own _ r hr)).2.2

/-- Witness for claim C6 on the concrete two-record buffer `c6buf`. -/
theorem claim_C6_witness :
    (8 ≤ 12 ∧ 0 + 12 ≤ c6buf.length) ∧
    (12 : Nat) = 0 + 12 ∧ 12 + 16 ≤ c6buf.length := by
  obtain ⟨hmem, hadj, hlast⟩ := claim_C6_parse_record_invariants c6buf 0
  refine ⟨?_, ?_, ?_⟩
  · exact hmem ([102, 114, 101, 101], 0, 12) (by decide)
  · exact hadj 0 ([102, 114, 101, 101], 0, 12) ([109, 100, 97, 116], 12, 16)
      (by decide) (by decide)
  · exact hlast ([109, 100, 97, 116], 12, 16) (by decide)

/-! ## Claim C7 -/

/-- Claim C7: the boundary parser is total (the embedding is a terminating
function): it returns the empty sequence whenever fewer than 8 bytes
remain from the start offset, and every appended record advances the
cursor by at least 8 while staying within the buffer, so the output length
is bounded by an eighth of the remaining bytes. -/
theorem claim_C7_parse_total (B : List Nat) (s : Nat) :
    (B.length < s + 8 → parse_mp4_atoms B s = []) ∧
    (parse_mp4_atoms B s ≠ [] → s + 8 * (parse_mp4_atoms B s).length ≤ B.length) := by
  constructor
  · intro h
    exact parse_eq_nil_of_short B s (by omega)
  · intro h
    exact parseLoop_len B (B.length + 1) s h

/-- Witness for claim C7 on concrete buffers. -/
theorem claim_C7_witness :
    parse_mp4_atoms [1, 2, 3] 0 = [] ∧
    0 + 8 * (parse_mp4_atoms c7buf 0).length ≤ c7buf.length :=
  ⟨(claim_C7_parse_total [1, 2, 3] 0).1 (by decide),
   (claim_C7_parse_total c7buf 0).2 (by decide)⟩

/-! ## Claim C4 -/

/-- Claim C4 (counterexample): with exactly 1000 bytes remaining — which
the claim explicitly includes under "at least 1000 bytes remain" — the
premises of the claim hold on `c4buf` (non-empty parse without `moov`,
window containing the `mdat` tag), yet `extract_mp4_video` returns
nothing, because source line 80 requires strictly more than 1000 remaining
bytes. -/
theorem claim_C4_counterexample :
    parse_mp4_atoms c4buf 0 ≠ [] ∧
    (∀ r ∈ parse_mp4_atoms c4buf 0, r.1 ≠ moovTag) ∧
    1000 ≤ c4buf.length - 0 ∧
    mdatTag <:+: mp4_window c4buf 0 ∧
    extract_mp4_video c4buf 0 = none := by
  decide

/-- Claim C4 (amended): as the claim states, but requiring strictly more
than 1000 remaining bytes: whenever the parse from `s` is non-empty and
contains no `moov` record, strictly more than 1000 bytes remain, and the
window contains the `moov` or `mdat` tag bytes anywhere, the extraction
returns exactly the window slice. -/
theorem claim_C4_window_fallback (B : List Nat) (s : Nat)
    (hne : parse_mp4_atoms B s ≠ [])
    (hnomoov : ∀ r ∈ parse_mp4_atoms B s, r.1 ≠ moovTag)
    (hrem : 1000 < B.length - s)
    (htag : moovTag <:+: mp4_window B s ∨ mdatTag <:+: mp4_window B s) :
    extract_mp4_video B s = some (mp4_window B s) := by
  unfold extract_mp4_video
  rw [if_neg hne]
  have hno : ¬ ((∃ r ∈ parse_mp4_atoms B s, r.1 = moovTag) ∧
      (mp4_struct_slice B s).take 4 = ftypTag) := by
    rintro ⟨⟨r, hr, hrm⟩, _⟩
    exact hnomoov r hr hrm
  rw [if_neg hno]
  unfold mp4_window_fallback
  rw [if_pos hrem, if_pos htag]

/-- Witness for the amended claim C4 on a concrete 1008-byte buffer. -/
theorem claim_C4_witness :
    extract_mp4_video ([0, 0, 0, 16] ++ mdatTag ++ List.replicate 1000 0) 0 =
      some (mp4_window ([0, 0, 0, 16] ++ mdatTag ++ List.replicate 1000 0) 0) :=
  claim_C4_window_fallback ([0, 0, 0, 16] ++ mdatTag ++ List.replicate 1000 0) 0
    (by decide) (by decide) (by decide) (Or.inr (by decide))

/-! ## Claim C5 -/

/-- Claim C5 (counterexample): on `c5buf` a `moov` record is present in
the parsed sequence and the structural path rejects its slice (the slice
does not pass the line 75 signature check), yet the result is the window
produced by the bounded heuristic — the source falls through to lines
80-87 instead of deciding by the structural path alone. -/
theorem claim_C5_counterexample :
    (∃ r ∈ parse_mp4_atoms c5buf 0, r.1 = moovTag) ∧
    (mp4_struct_slice c5buf 0).take 4 ≠ ftypTag ∧
    extract_mp4_video c5buf 0 = some (mp4_window c5buf 0) := by
  decide

/-- Claim C5 (amended): the bounded windowed heuristic is attempted
exactly when the structural `moov` path did not return an accepted slice:
with a `moov` record present, the result is the structural slice when that
slice passes the signature check, and otherwise the code falls through to
the bounded window fallback. -/
theorem claim_C5_structural_priority (B : List Nat) (s : Nat)
    (hmoov : ∃ r ∈ parse_mp4_atoms B s, r.1 = moovTag) :
    ((mp4_struct_slice B s).take 4 = ftypTag →
      extract_mp4_video B s = some (mp4_struct_slice B s)) ∧
    ((mp4_struct_slice B s).take 4 ≠ ftypTag →
      extract_mp4_video B s = mp4_window_fallback B s) := by
  have hne : parse_mp4_atoms B s ≠ [] := by
    obtain ⟨r, hr, _⟩ := hmoov
    intro hnil
    rw [hnil] at hr
    cases hr
  constructor
  · intro htag
    unfold extract_mp4_video
    rw [if_neg hne, if_pos ⟨hmoov, htag⟩]
  · intro htag
    have hno : ¬ ((∃ r ∈ parse_mp4_atoms B s, r.1 = moovTag) ∧
        (mp4_struct_slice B s).take 4 = ftypTag) := fun hco => htag hco.2
    unfold extract_mp4_video
    rw [if_neg hne, if_neg hno]

/-- Witness for the amended claim C5 on the concrete buffer `c5buf`. -/
theorem claim_C5_witness :
    extract_mp4_video c5buf 0 = mp4_window_fallback c5buf 0 :=
  (claim_C5_structural_priority c5buf 0 (by decide)).2 (by decide)

/-! ## Claim C2 -/

theorem decodeU32_beU32 (n : Nat) (h : n < 4294967296) : decodeU32 (beU32 n) = n := by
  simp only [decodeU32, beU32]
  omega

theorem mkRoundTrip_length (m p : List Nat) :
    (mkRoundTrip m p).length = 24 + m.length + p.length := by
  simp only [mkRoundTrip, beU32, ftypTag, moovTag, mdatTag, List.length_append,
    List.length_cons, List.length_nil]
  omega

/-- Claim C2 (counterexample): the smallest buffer of the claimed shape
(empty record payloads, total length 24) is not round-tripped:
`extract_mp4_video` returns nothing on it, because the parse sees a single
`ftyp`-typed record covering the whole buffer (no `moov` record), and the
window fallback demands strictly more than 1000 remaining bytes. -/
theorem claim_C2_counterexample :
    extract_mp4_video (mkRoundTrip [] []) 0 ≠ some (mkRoundTrip [] []) := by
  decide

/-- Claim C2 (amended): the round trip holds for buffers of the claimed
shape whose total length is above 1000 bytes and at most 100 MiB.  The
value is returned by the window fallback: the leading size field covers
the whole buffer, so the parse is one `ftyp`-typed record, the `moov`
path is not taken, and the window (the whole buffer) contains the `moov`
tag bytes. -/
theorem claim_C2_roundtrip (m p : List Nat)
    (hbig : 1000 < (mkRoundTrip m p).length)
    (hcap : (mkRoundTrip m p).length ≤ 104857600) :
    extract_mp4_video (mkRoundTrip m p) 0 = some (mkRoundTrip m p) := by
  have hlen := mkRoundTrip_length m p
  have hsplit : mkRoundTrip m p = beU32 (24 + m.length + p.length) ++
      (ftypTag ++ ((beU32 (8 + m.length) ++ moovTag ++ m) ++
        (beU32 (8 + p.length) ++ mdatTag ++ p))) := by
    unfold mkRoundTrip
    simp [List.append_assoc]
  have htake4 : (mkRoundTrip m p).take 4 = beU32 (24 + m.length + p.length) := by
    rw [hsplit, List.take_append_of_le_length (by simp [beU32])]
    rfl
  have hdrop4 : (mkRoundTrip m p).drop 4 =
      ftypTag ++ ((beU32 (8 + m.length) ++ moovTag ++ m) ++
        (beU32 (8 + p.length) ++ mdatTag ++ p)) := by
    rw [hsplit]
    have h := @List.drop_append Nat (beU32 (24 + m.length + p.length))
      (ftypTag ++ ((beU32 (8 + m.length) ++ moovTag ++ m) ++
        (beU32 (8 + p.length) ++ mdatTag ++ p))) 0
    have h2 : (beU32 (24 + m.length + p.length)).length + 0 = 4 := by simp [beU32]
    rw [h2, List.drop_zero] at h
    exact h
  have htype : ((mkRoundTrip m p).drop 4).take 4 = ftypTag := by
    rw [hdrop4, List.take_append_of_le_length (by simp [ftypTag])]
    rfl
  have hd0 : decodeU32 (((mkRoundTrip m p).drop 0).take 4) = (mkRoundTrip m p).length := by
    rw [List.drop_zero, htake4, hlen]
    exact decodeU32_beU32 _ (by omega)
  have hcons := parse_eq_cons (mkRoundTrip m p) 0 (by omega) (by rw [hd0]; omega)
    (by rw [hd0]; omega)
  rw [hd0] at hcons
  rw [parse_eq_nil_of_short (mkRoundTrip m p) (0 + (mkRoundTrip m p).length) (by omega)] at hcons
  simp only [Nat.zero_add] at hcons
  rw [htype] at hcons
  have hne : ([(ftypTag, 0, (mkRoundTrip m p).length)] :
      List (List Nat × Nat × Nat)) ≠ [] := by simp
  have hnomoov : ¬ ((∃ r ∈ ([(ftypTag, 0, (mkRoundTrip m p).length)] :
      List (List Nat × Nat × Nat)), r.1 = moovTag) ∧
      (mp4_struct_slice (mkRoundTrip m p) 0).take 4 = ftypTag) := by
    rintro ⟨⟨r, hr, hrm⟩, _⟩
    simp at hr
    rw [hr] at hrm
    simp [ftypTag, moovTag] at hrm
  have hwin : mp4_window (mkRoundTrip m p) 0 = mkRoundTrip m p := by
    unfold mp4_window
    rw [List.drop_zero]
    have hm2 : min (0 + 100 * 1024 * 1024) (mkRoundTrip m p).length - 0 =
        (mkRoundTrip m p).length := by omega
    rw [hm2, List.take_length]
  have hmoov : moovTag <:+: mp4_window (mkRoundTrip m p) 0 := by
    rw [hwin]
    refine ⟨beU32 (24 + m.length + p.length) ++ ftypTag ++ beU32 (8 + m.length),
      m ++ (beU32 (8 + p.length) ++ mdatTag ++ p), ?_⟩
    unfold mkRoundTrip
    simp [List.append_assoc]
  unfold extract_mp4_video
  rw [hcons, if_neg hne, if_neg hnomoov]
  unfold mp4_window_fallback
  rw [if_pos (show 1000 < (mkRoundTrip m p).length - 0 from by omega),
    if_pos (Or.inl hmoov), hwin]

/-- Witness for the amended claim C2 on a concrete 1024-byte buffer. -/
theorem claim_C2_witness :
    extract_mp4_video (mkRoundTrip (List.replicate 1000 0) []) 0 =
      some (mkRoundTrip (List.replicate 1000 0) []) :=
  claim_C2_roundtrip (List.replicate 1000 0) []
    (by rw [mkRoundTrip_length]; simp only [List.length_replicate, List.length_nil]; omega)
    (by rw [mkRoundTrip_length]; simp only [List.length_replicate, List.length_nil]; omega)

/-! ## Claim C8 -/

/-- Claim C8: every candidate start recorded by the signature scan is a
signature occurrence offset minus 4 (so occurrences at buffer offsets 0-3,
which leave no room for the preceding size field, never produce a
candidate), and every signature occurrence at offset at least 4 still
produces its candidate — the scan cursor advances past skipped
occurrences instead of abandoning the rest of the buffer. -/
theorem claim_C8_scan_candidates (B : List Nat) :
    (∀ c ∈ (scan_steps B).map Prod.fst, isFtypAt B (c + 4)) ∧
    (∀ q, 4 ≤ q → isFtypAt B q → q - 4 ∈ (scan_steps B).map Prod.fst) := by
  constructor
  · intro c hc
    exact scanLoop_sound B (B.length + 1) 0 c hc
  · intro q h4 hocc
    exact scanLoop_complete B (B.length + 1) 0 q (by omega) (by omega) h4 hocc

/-- Witness for claim C8 on `c8buf`, whose signature occurrence at offset
2 is skipped while the occurrence at offset 10 still yields candidate 6. -/
theorem claim_C8_witness :
    isFtypAt c8buf (6 + 4) ∧ (10 - 4 : Nat) ∈ (scan_steps c8buf).map Prod.fst := by
  obtain ⟨hsound, hcomplete⟩ := claim_C8_scan_candidates c8buf
  exact ⟨hsound 6 (by decide), hcomplete 10 (by decide) (by decide)⟩

/-! ## Claim C9 -/

/-- Claim C9: per input file, the signature scanner runs over the raw file
content exactly when the UnityPy structured path reports zero extracted
videos for the file, and an adapter failure is caught and reported as zero
(so it triggers the scanner) rather than raising. -/
theorem claim_C9_fallback_policy (outcome : Except String Nat) (scannerCount : Nat) :
    ((main_process_file outcome scannerCount).2 = true ↔
      extract_unitypy_videos outcome = 0) ∧
    (∀ e, extract_unitypy_videos (Except.error e) = 0) := by
  constructor
  · unfold main_process_file
    by_cases h : extract_unitypy_videos outcome = 0
    · simp [h]
    · simp [h]
  · intro e
    rfl

/-! ## Claim C10 -/

theorem extract_some_cases (data : List Nat) (s : Nat) (v : List Nat)
    (h : extract_mp4_video data s = some v) :
    (data.drop s).take 4 = ftypTag ∨ 1000 < v.length := by
  unfold extract_mp4_video at h
  by_cases h0 : parse_mp4_atoms data s = []
  · rw [if_pos h0] at h; cases h
  · rw [if_neg h0] at h
    by_cases h1 : (∃ r ∈ parse_mp4_atoms data s, r.1 = moovTag) ∧
        (mp4_struct_slice data s).take 4 = ftypTag
    · rw [if_pos h1] at h
      cases h
      left
      have h2 := h1.2
      have h3 : (mp4_struct_slice data s)[3]? = some 112 := by
        have hmap := congrArg (fun l => l[3]?) h2
        simpa [List.getElem?_take, ftypTag] using hmap
      have h4 : 3 < (mp4_struct_slice data s).length := by
        by_contra hcon
        rw [List.getElem?_eq_none (by omega)] at h3
        cases h3
      have h5 : (mp4_struct_slice data s).length ≤ last_atom_end data s - s := by
        unfold mp4_struct_slice
        exact List.length_take_le _ _
      unfold mp4_struct_slice at h2
      rw [List.take_take] at h2
      have h7 : (4 : Nat) ⊓ (last_atom_end data s - s) = 4 := by omega
      rw [h7] at h2
      exact h2
    · rw [if_neg h1] at h
      unfold mp4_window_fallback at h
      by_cases h2 : 1000 < data.length - s
      · rw [if_pos h2] at h
        by_cases h3 : moovTag <:+: mp4_window data s ∨ mdatTag <:+: mp4_window data s
        · rw [if_pos h3] at h
          cases h
          right
          unfold mp4_window
          rw [List.length_take, List.length_drop]
          omega
        · rw [if_neg h3] at h; cases h
      · rw [if_neg h2] at h; cases h

theorem extract_unity_videos_mem (content : List Nat) (v : List Nat)
    (h : v ∈ extract_unity_videos content) : 1000 < v.length := by
  unfold extract_unity_videos at h
  rw [List.mem_filterMap] at h
  obtain ⟨st, hst, hmap⟩ := h
  cases hv : st.2 with
  | none =>
    simp only [hv] at hmap
    exact Option.noConfusion hmap
  | some w =>
    simp only [hv] at hmap
    by_cases hw : 1000 < w.length
    · rw [if_pos hw] at hmap
      injection hmap with hvw
      rw [← hvw]
      exact hw
    · rw [if_neg hw] at hmap
      cases hmap

theorem unitypy_payload_len (raw v : List Nat)
    (h : unitypy_video_payload raw = some v) : 1000 < v.length := by
  unfold unitypy_video_payload at h
  by_cases h0 : raw ≠ [] ∧ 1000 < raw.length
  · rw [if_pos h0] at h
    by_cases h1 : raw.take 4 = ftypTag
    · rw [if_pos h1] at h
      injection h with hv
      rw [← hv]
      exact h0.2
    · rw [if_neg h1] at h
      cases hf : findFtyp raw 0 with
      | none =>
        simp only [hf] at h
        exact Option.noConfusion h
      | some p =>
        simp only [hf] at h
        by_cases hp : 4 ≤ p
        · rw [if_pos hp] at h
          rcases extract_some_cases raw (p - 4) v h with hocc | hlen
          · exfalso
            obtain ⟨-, -, hmin⟩ := findFtyp_some raw 0 p hf
            exact hmin (p - 4) (by omega) (by omega) hocc
          · exact hlen
        · rw [if_neg hp] at h; cases h
  · rw [if_neg h0] at h; cases h

/-- Claim C10: every payload ever written to disk — by the signature
scanner and by the UnityPy structured path alike — is strictly longer than
1000 bytes; a candidate of length exactly 1000 or less is never written. -/
theorem claim_C10_min_written_length :
    (∀ B v, v ∈ extract_unity_videos B → 1000 < v.length) ∧
    (∀ raw v, unitypy_video_payload raw = some v → 1000 < v.length) :=
  ⟨fun B v h => extract_unity_videos_mem B v h,
   fun raw v h => unitypy_payload_len raw v h⟩

theorem findFtypAux_eq_none (l : List Nat)
    (hno : ∀ m, ¬ (l.drop m).take 4 = ftypTag) : ∀ idx, findFtypAux l idx = none := by
  induction l with
  | nil => intro idx; rfl
  | cons a rest ih =>
    intro idx
    rw [findFtypAux, if_neg (by simpa using hno 0)]
    exact ih (fun m => by simpa using hno (m + 1)) (idx + 1)

theorem no102_no_ftyp (l : List Nat) (h102 : (102 : Nat) ∉ l) :
    ∀ m, ¬ (l.drop m).take 4 = ftypTag := by
  intro m hco
  have h0 : (l.drop m)[0]? = some 102 := by
    have hmap := congrArg (fun t => t[0]?) hco
    simpa [List.getElem?_take, ftypTag] using hmap
  exact h102 (List.drop_subset m l (List.getElem?_mem h0))

theorem scanLoop_eq_nil (content : List Nat) (pos : Nat)
    (h : findFtyp content pos = none) : ∀ fuel, scanLoop fuel content pos = [] := by
  intro fuel
  cases fuel with
  | zero => rfl
  | succ f => simp [scanLoop, h]

theorem scanLoop_eq_cons (fuel : Nat) (content : List Nat) (pos p : Nat)
    (h : findFtyp content pos = some p) (h4 : ¬ p < 4) :
    scanLoop (fuel + 1) content pos =
      (p - 4, extract_mp4_video content (p - 4)) :: scanLoop fuel content (p + 4) := by
  simp [scanLoop, h, h4]

/-- Witness for claim C10: the scanner path on the concrete buffer
`c10buf` and the UnityPy path on the concrete blob `c10raw`. -/
theorem claim_C10_witness : 1000 < c10buf.length ∧ 1000 < c10raw.length := by
  have hmain := claim_C10_min_written_length
  constructor
  · refine hmain.1 c10buf c10buf ?_
    have hlen : c10buf.length = 1009 := by
      unfold c10buf
      rw [List.length_append, List.length_append, List.length_append, List.length_replicate]
      rfl
    have hfind0 : findFtyp c10buf 0 = some 4 := by decide
    have hextract : extract_mp4_video c10buf 0 = some c10buf := by decide
    have hdrop8 : c10buf.drop 8 = moovTag ++ List.replicate 997 0 := by decide
    have hfind8 : findFtyp c10buf 8 = none := by
      unfold findFtyp
      rw [hdrop8]
      refine findFtypAux_eq_none _ (no102_no_ftyp _ ?_) 8
      intro hmem
      rcases List.mem_append.mp hmem with hm | hm
      · exact absurd hm (by decide)
      · rw [List.mem_replicate] at hm
        exact absurd hm.2 (by decide)
    have hsteps : scan_steps c10buf = [(0, some c10buf)] := by
      show scanLoop (c10buf.length + 1) c10buf 0 = [(0, some c10buf)]
      rw [scanLoop_eq_cons c10buf.length c10buf 0 4 hfind0 (by omega)]
      norm_num
      rw [hextract, scanLoop_eq_nil c10buf 8 hfind8 c10buf.length]
      exact ⟨rfl, rfl⟩
    unfold extract_unity_videos
    rw [hsteps]
    simp [hlen]
  · exact hmain.2 c10raw c10raw (by decide)
